import Mathlib

/-!
Verification of the chatbot repository's ingestion/deduplication pipeline
(`populate_database.py`) and RAG request pipeline (`app.py`) against its
natural-language specification.

The Python source is shallowly embedded: pure fragments become Lean
functions, the Chroma vector store becomes a `Finset String` of chunk
identifiers, the SQLite conversation store becomes a list of rows, and the
Socket.IO channel becomes an explicit event list.  Machine floats appear
only as similarity scores that are compared against the literal `1.0`, so
scores are embedded as rationals.
-/

namespace Chatbot

/-! ## Decimal rendering of integers (Python `str(int)` / f-string interpolation)

`decDigits` is fuel-indexed so that it is structurally recursive and
evaluates inside `decide`/`rfl`; `natToDec n` supplies fuel `n + 1`, which
always suffices since `n < 10 ^ (n + 1)`. -/

def digitChar (d : Nat) : Char := Char.ofNat (48 + d)

def decDigits : Nat → Nat → List Char
  | 0, _ => []
  | fuel + 1, n =>
    if n < 10 then [digitChar n]
    else decDigits fuel (n / 10) ++ [digitChar (n % 10)]

def natToDec (n : Nat) : String := ⟨decDigits (n + 1) n⟩

/-- Reads a digit string back as a number; used to prove `natToDec` injective. -/
def decVal (l : List Char) : Nat := l.foldl (fun a c => a * 10 + (c.toNat - 48)) 0

/-! ## Chunk metadata and `PDFChromaIngestor.calculate_chunk_ids`

A `Chunk` embeds a langchain `Document`: its text plus the metadata keys the
ingestor reads (`source`, `page`, `start_index`).  `Option` encodes key
absence (`"page" in chunk.metadata` etc.). -/

structure ChunkMeta where
  source : Option String
  page : Option Nat
  start_index : Option Nat
  deriving DecidableEq, Repr

structure Chunk where
  page_content : String
  meta : ChunkMeta
  deriving DecidableEq, Repr

def dfltChunk : Chunk := ⟨"", ⟨none, none, none⟩⟩

/-- `chunk.metadata.get("source", "unknown")`. -/
def sourceOf (c : Chunk) : String := c.meta.source.getD "unknown"

/-- The position key the code selects: `page` if present, else `start_index`,
else missing (rendered `"unknown"`). -/
def keyOf (c : Chunk) : Option Nat :=
  match c.meta.page with
  | some p => some p
  | none => c.meta.start_index

/-- Rendering of the position key into the identifier string. -/
def keyStr : Option Nat → String
  | some n => natToDec n
  | none => "unknown"

/-- `identifier` as computed at the top of the loop in `calculate_chunk_ids`. -/
def identifierOf (c : Chunk) : String := keyStr (keyOf c)

/-- `current_identifier = f"{source}:{identifier}"`. -/
def currentIdentifierOf (c : Chunk) : String := sourceOf c ++ ":" ++ identifierOf c

/-- The `(sourcePath, positionKey)` pair of the specification. -/
def pairOf (c : Chunk) : String × Option Nat := (sourceOf c, keyOf c)

/-- The loop of `calculate_chunk_ids`, carrying `last_identifier` and
`current_idx`, returning the assigned id strings in order. -/
def calcIdsAux : Option String → Nat → List Chunk → List String
  | _, _, [] => []
  | last, idx, c :: cs =>
    let cur := currentIdentifierOf c
    let idx' := if some cur = last then idx + 1 else 0
    (cur ++ ":" ++ natToDec idx') :: calcIdsAux (some cur) idx' cs

/-- `PDFChromaIngestor.calculate_chunk_ids`: the ordered list of chunk ids
written into `chunk.metadata["id"]` (initial state `last_identifier = None`,
`current_idx = 0`). -/
def calculate_chunk_ids (chunks : List Chunk) : List String :=
  calcIdsAux none 0 chunks

/-- The same loop, projected on the `current_idx` value assigned per chunk
(the ordinal embedded in each id). -/
def calcOrdinalsAux : Option String → Nat → List Chunk → List Nat
  | _, _, [] => []
  | last, idx, c :: cs =>
    let cur := currentIdentifierOf c
    let idx' := if some cur = last then idx + 1 else 0
    idx' :: calcOrdinalsAux (some cur) idx' cs

def calculate_ordinals (chunks : List Chunk) : List Nat :=
  calcOrdinalsAux none 0 chunks

/-! ## `PDFChromaIngestor.add_to_chroma`

The Chroma collection is embedded as its identifier set (`db.get(include=[])`
exposes exactly the ids).  `add_to_chroma` recomputes the chunk ids, keeps
chunks whose id is not already stored, and upserts them in one batch;
it returns the number of added chunks and the updated identifier set. -/

def add_to_chroma (chunks : List Chunk) (store : Finset String) : Nat × Finset String :=
  let ids := calculate_chunk_ids chunks
  let newIds := ids.filter (fun i => i ∉ store)
  (newIds.length, store ∪ newIds.toFinset)

/-! ## Concrete chunk lists used by the spec's scenarios -/

/-- Four chunks of one source whose position keys follow the spec's
`[A, A, B, A]` pattern (pages 1, 1, 2, 1). -/
def exampleAABA : List Chunk :=
  [⟨"c1", ⟨some "doc.pdf", some 1, none⟩⟩,
   ⟨"c2", ⟨some "doc.pdf", some 1, none⟩⟩,
   ⟨"c3", ⟨some "doc.pdf", some 2, none⟩⟩,
   ⟨"c4", ⟨some "doc.pdf", some 1, none⟩⟩]

/-- Chunks whose equal position pairs occur consecutively, as the splitter
produces them (non-decreasing positions per source). -/
def exampleGrouped : List Chunk :=
  [⟨"g1", ⟨some "a.pdf", some 1, none⟩⟩,
   ⟨"g2", ⟨some "a.pdf", some 1, none⟩⟩,
   ⟨"g3", ⟨some "a.pdf", some 2, none⟩⟩,
   ⟨"g4", ⟨some "b.pdf", none, some 0⟩⟩]

/-- One paginated and one offset-keyed chunk, for the identifier-format
scenario. -/
def exampleFmt : List Chunk :=
  [⟨"t1", ⟨some "a.pdf", some 3, none⟩⟩,
   ⟨"t2", ⟨some "b.pdf", none, some 42⟩⟩]

/-! ## String containment (Python's `in` operator on strings) -/

def isPrefCh : List Char → List Char → Bool
  | [], _ => true
  | _ :: _, [] => false
  | a :: as, b :: bs => a = b && isPrefCh as bs

def isSubCh (needle : List Char) : List Char → Bool
  | [] => isPrefCh needle []
  | h :: t => isPrefCh needle (h :: t) || isSubCh needle t

/-- `needle in hay` for Python strings. -/
def strIn (needle hay : String) : Bool := isSubCh needle.data hay.data

/-! ## `re.split(r'[\\:]', source)` -/

def splitSeps : List Char → List (List Char)
  | [] => [[]]
  | c :: cs =>
    if c = ':' ∨ c = '\\' then [] :: splitSeps cs
    else
      match splitSeps cs with
      | [] => [[c]]
      | h :: t => (c :: h) :: t

/-- Splitting a chunk identifier on every `':'` or `'\'` character, as
`re.split(r'[\\:]', source)` does: one segment per separator gap. -/
def resplit (s : String) : List String := (splitSeps s.data).map String.mk

/-! ## The source-citation loop of `handle_submit_query` (app.py lines 245-251)

Python's `split_string[-3]` raises `IndexError` when the split yields fewer
than three segments, so the loop is embedded in `Except`. -/

inductive PyError where
  | indexError
  deriving DecidableEq, Repr

instance {ε α : Type} [DecidableEq ε] [DecidableEq α] : DecidableEq (Except ε α) := fun a b =>
  match a, b with
  | Except.ok x, Except.ok y =>
    if h : x = y then isTrue (by rw [h]) else isFalse (by simp [h])
  | Except.error x, Except.error y =>
    if h : x = y then isTrue (by rw [h]) else isFalse (by simp [h])
  | Except.ok _, Except.error _ => isFalse (by simp)
  | Except.error _, Except.ok _ => isFalse (by simp)

/-- The `for source in sources` loop accumulating `formatted_sources`:
falsy (missing or empty) ids are skipped; ids splitting into at least two
segments have segment `[-3]` appended as `<li>…</li>` unless that segment
already occurs as a substring of the accumulated markup; accessing `[-3]`
with only two segments raises `IndexError`. -/
def fsAux : String → List (Option String) → Except PyError String
  | acc, [] => Except.ok acc
  | acc, src :: rest =>
    match src with
    | none => fsAux acc rest
    | some s =>
      if s = "" then fsAux acc rest
      else
        let parts := resplit s
        if 1 < parts.length then
          if 3 ≤ parts.length then
            let lab := parts.getD (parts.length - 3) ""
            if strIn lab acc then fsAux acc rest
            else fsAux (acc ++ "<li>" ++ lab ++ "</li>\n") rest
          else Except.error PyError.indexError
        else fsAux acc rest

def formattedSources (srcs : List (Option String)) : Except PyError String :=
  fsAux "" srcs

/-- The same loop, recording the list of labels actually appended to
`formatted_sources`, in order (see `fsAux_labelsAux` relating the two). -/
def labelsAux : String → List (Option String) → Except PyError (List String)
  | _, [] => Except.ok []
  | acc, src :: rest =>
    match src with
    | none => labelsAux acc rest
    | some s =>
      if s = "" then labelsAux acc rest
      else
        let parts := resplit s
        if 1 < parts.length then
          if 3 ≤ parts.length then
            let lab := parts.getD (parts.length - 3) ""
            if strIn lab acc then labelsAux acc rest
            else
              match labelsAux (acc ++ "<li>" ++ lab ++ "</li>\n") rest with
              | Except.ok l => Except.ok (lab :: l)
              | Except.error e => Except.error e
          else Except.error PyError.indexError
        else labelsAux acc rest

def labelsOf (srcs : List (Option String)) : Except PyError (List String) :=
  labelsAux "" srcs

/-- The raw label each source id yields (segment `[-3]` of its split),
ignoring deduplication; `none` for skipped ids. -/
def extractOne (src : Option String) : Option String :=
  match src with
  | none => none
  | some s =>
    if s = "" then none
    else
      let parts := resplit s
      if 1 < parts.length then
        if 3 ≤ parts.length then some (parts.getD (parts.length - 3) "")
        else none
      else none

def extractedLabels (srcs : List (Option String)) : List String :=
  srcs.filterMap extractOne

def wrapLi (lab : String) : String := "<li>" ++ lab ++ "</li>\n"

/-- Literal deduplication keeping the first occurrence (what "deduplicate
labels while preserving first-seen order" describes). -/
def dedupFirstAux : List String → List String → List String
  | _, [] => []
  | seen, x :: xs =>
    if x ∈ seen then dedupFirstAux seen xs
    else x :: dedupFirstAux (x :: seen) xs

def dedupFirst (l : List String) : List String := dedupFirstAux [] l

/-! ## Conversation store, retrieval results, and the query pipeline -/

structure Msg where
  role : String
  content : String
  deriving DecidableEq, Repr

/-- The rows of the current conversation in the SQLite store, in timestamp
(= insertion) order, with their autoincremented primary keys; `nextId` is
the next key to be assigned. -/
structure ChatState where
  msgs : List (Nat × Msg)
  nextId : Nat
  deriving DecidableEq, Repr

/-- One element of `similarity_search_with_score(query, k=10)`:
`(doc.page_content, doc.metadata.get("id", None), score)`.  Scores are the
store's distance values; only their comparison against the literal `1.0`
matters, so they are embedded as rationals. -/
structure SearchResult where
  content : String
  metaId : Option String
  score : ℚ
  deriving DecidableEq, Repr

/-- Socket.IO events emitted to the conversation's room. -/
inductive Event where
  | startStream (messageId : Nat)
  | streamToken (token : String) (messageId : Nat)
  | finalResponse (finalMessage : String) (messageId : Nat)
  deriving DecidableEq, Repr

/-- Outcome of iterating `model.stream(prompt)`: either the full finite
token sequence, or failure after emitting a prefix of tokens. -/
inductive StreamOutcome where
  | ok (tokens : List String)
  | failAfter (tokens : List String)
  deriving DecidableEq, Repr

/-- Line 226's filter: results used for the retrieved-context block. -/
def contextFiltered (results : List SearchResult) : List SearchResult :=
  results.filter (fun r => r.score < 1)

/-- Line 244's filter: results used for the sources list. -/
def sourcesFiltered (results : List SearchResult) : List SearchResult :=
  results.filter (fun r => r.score < 1)

/-- Python `sep.join`. -/
def joinSep (sep : String) : List String → String
  | [] => ""
  | [x] => x
  | x :: y :: t => x ++ sep ++ joinSep sep (y :: t)

/-- Concatenation of a list of strings (`response_text += token` run over
the whole token stream, `"".join`). -/
def joinStrs : List String → String
  | [] => ""
  | x :: xs => x ++ joinStrs xs

/-- `docs_text`: the joined contents of passing results, or the fallback
sentence when the join is falsy (empty). -/
def docsText (results : List SearchResult) : String :=
  let joined := joinSep "\n\n---\n\n" ((contextFiltered results).map (fun r => r.content))
  if joined = "" then "No relevant documents found." else joined

/-- `sources`: the (possibly missing) metadata ids of passing results. -/
def sourcesOf (results : List SearchResult) : List (Option String) :=
  (sourcesFiltered results).map (fun r => r.metaId)

/-- Python `str.title()` restricted to its effect on ASCII role names:
a letter is uppercased after a non-letter and lowercased after a letter. -/
def pyTitleAux : Bool → List Char → List Char
  | _, [] => []
  | prevAlpha, c :: cs =>
    (if prevAlpha then c.toLower else c.toUpper) :: pyTitleAux c.isAlpha cs

def pyTitle (s : String) : String := ⟨pyTitleAux false s.data⟩

/-- `f"{m.role.title()}: {m.content}"`. -/
def fmtMsg (m : Msg) : String := pyTitle m.role ++ ": " ++ m.content

/-- Python `list[-n:]`. -/
def lastN (l : List α) (n : Nat) : List α := l.drop (l.length - n)

/-- `history_text`: the rendered rows joined by newlines. -/
def historyText (hist : List (Nat × Msg)) : String :=
  joinSep "\n" (hist.map (fun p => fmtMsg p.2))

/-- The fixed segments of `PROMPT_TEMPLATE` around the three holes. -/
def promptHeader : String :=
  "\nYou are a knowledgeable and articulate assistant. \nBased solely on the context provided below, produce a detailed and self-contained answer to the question. \nStructure your answer with clear sections, such as:\n\n1. **Overview:** A brief summary or introduction.\n2. **Key Details:** Explanation of the relevant facts or technical points.\n3. **Insights or Comparisons:** Any additional analysis, recommendations, or comparisons that help clarify the answer.\n\nDo not refer to internal labels or figures from the context. Ensure your answer is easy to understand on its own.\n\nConversation So Far:\n"

def promptMid1 : String := "\n\nRetrieved Context:\n"

def promptMid2 : String := "\n\nQuestion:\n"

def promptSuffix : String := "\n\nAnswer:\n"

/-- `prompt_template.format(chat_history=…, context=…, question=…)`. -/
def buildPrompt (hist ctx q : String) : String :=
  promptHeader ++ hist ++ promptMid1 ++ ctx ++ promptMid2 ++ q ++ promptSuffix

/-- `db.session.add(ChatMessage(...)); db.session.commit()`: appends a row
with the next autoincrement key and returns the assigned key. -/
def appendMsg (st : ChatState) (role content : String) : ChatState × Nat :=
  (⟨st.msgs ++ [(st.nextId, ⟨role, content⟩)], st.nextId + 1⟩, st.nextId)

/-- Overwriting the content of the row with primary key `id`. -/
def updateContent (st : ChatState) (id : Nat) (content : String) : ChatState :=
  ⟨st.msgs.map (fun p => if p.1 = id then (p.1, ⟨p.2.role, content⟩) else p), st.nextId⟩

/-- The conversation store after `handle_submit_query` has committed the
user's message and the `"Generating..."` placeholder (app.py lines 210-218),
i.e. the state from which the history is then read. -/
def persistedAfterSubmit (st : ChatState) (query : String) : ChatState :=
  (appendMsg (appendMsg st "user" query).1 "assistant" "Generating...").1

/-- `handle_submit_query` (app.py lines 202-259) for one conversation.
`render` stands for `markdown2.markdown`; `results` for the value of
`similarity_search_with_score`; `stream` for the model's token stream.
Returns the final conversation store and the ordered list of events
emitted to the conversation's room.  An exception inside the handler
(model failure mid-stream, or `IndexError` in the citation loop) aborts it:
no further statement runs, so no update and no further event. -/
def handleSubmitQuery (render : String → String) (st : ChatState) (query : String)
    (results : List SearchResult) (stream : StreamOutcome) : ChatState × List Event :=
  let st1 := (appendMsg st "user" query).1
  let st2 := (appendMsg st1 "assistant" "Generating...").1
  let aid := (appendMsg st1 "assistant" "Generating...").2
  let hist := lastN st2.msgs 10
  let _prompt := buildPrompt (historyText hist) (docsText results) query
  match stream with
  | StreamOutcome.failAfter toks =>
    (st2, Event.startStream aid :: toks.map (fun t => Event.streamToken t aid))
  | StreamOutcome.ok toks =>
    let responseText := joinStrs toks
    match formattedSources (sourcesOf results) with
    | Except.error _ =>
      (st2, Event.startStream aid :: toks.map (fun t => Event.streamToken t aid))
    | Except.ok fsStr =>
      let formatted :=
        if fsStr = "" then responseText
        else responseText ++ "\n\n<h4>Here my Sources:</h4>\n<ul>" ++ fsStr ++ "</ul>"
      let html := render formatted
      let st3 := updateContent st2 aid html
      (st3, Event.startStream aid ::
        (toks.map (fun t => Event.streamToken t aid) ++ [Event.finalResponse html aid]))

/-- A retrieval answer with one result past the threshold (score 2) and one
below it (score 0). -/
def demoResults : List SearchResult :=
  [⟨"far", some "far.pdf:1:0", 2⟩, ⟨"near", some "near.pdf:1:0", 0⟩]

/-- The spec's source-attribution scenario: two passing chunks of page 3 of
`report.pdf`. -/
def demoSources : List (Option String) := [some "report.pdf:3:0", some "report.pdf:3:1"]

end Chatbot

namespace Chatbot

/-! ## Properties of decimal rendering -/

theorem digitChar_toNat {d : Nat} (h : d < 10) : (digitChar d).toNat = 48 + d := by
  interval_cases d <;> decide

theorem digitChar_lt {d : Nat} (h : d < 10) : (digitChar d).toNat < 58 := by
  interval_cases d <;> decide

theorem decDigits_toNat_lt : ∀ fuel n c, c ∈ decDigits fuel n → c.toNat < 58 := by
  intro fuel
  induction fuel with
  | zero => intro n c hc; simp [decDigits] at hc
  | succ f ih =>
    intro n c hc
    by_cases hn : n < 10
    · simp [decDigits, hn] at hc
      rw [hc]
      exact digitChar_lt hn
    · simp [decDigits, hn] at hc
      rcases hc with h1 | h1
      · exact ih _ _ h1
      · rw [h1]
        exact digitChar_lt (Nat.mod_lt _ (by omega))

theorem decVal_decDigits : ∀ fuel n, n < 10 ^ fuel → decVal (decDigits fuel n) = n := by
  intro fuel
  induction fuel with
  | zero =>
    intro n h
    interval_cases n
    rfl
  | succ f ih =>
    intro n h
    by_cases hn : n < 10
    · simp [decDigits, hn, decVal, digitChar_toNat hn]
    · have hm : n < 10 * 10 ^ f := by
        rw [pow_succ] at h
        omega
      have hdiv : n / 10 < 10 ^ f := Nat.div_lt_of_lt_mul hm
      have hsplit : decVal (decDigits f (n / 10) ++ [digitChar (n % 10)]) =
          decVal (decDigits f (n / 10)) * 10 + ((digitChar (n % 10)).toNat - 48) := by
        simp [decVal, List.foldl_append]
      rw [decDigits]
      simp only [hn, if_false]
      rw [hsplit, ih _ hdiv, digitChar_toNat (Nat.mod_lt _ (by omega))]
      omega

theorem natToDec_inj {a b : Nat} (h : natToDec a = natToDec b) : a = b := by
  have hpow : ∀ n : Nat, n < 10 ^ (n + 1) := by
    intro n
    calc n < 10 ^ n := Nat.lt_pow_self (by norm_num) n
    _ ≤ 10 ^ (n + 1) := Nat.pow_le_pow_right (by norm_num) (Nat.le_succ n)
  have hd : decDigits (a + 1) a = decDigits (b + 1) b := congrArg String.data h
  calc a = decVal (decDigits (a + 1) a) := (decVal_decDigits _ _ (hpow a)).symm
  _ = decVal (decDigits (b + 1) b) := by rw [hd]
  _ = b := decVal_decDigits _ _ (hpow b)

theorem natToDec_colonFree (n : Nat) : ':' ∉ (natToDec n).data := by
  intro h
  exact absurd (decDigits_toNat_lt _ _ _ h) (by decide)

theorem natToDec_ne_unknown (n : Nat) : natToDec n ≠ "unknown" := by
  intro h
  have hd : decDigits (n + 1) n = "unknown".data := congrArg String.data h
  have hu : 'u' ∈ decDigits (n + 1) n := by
    rw [hd]
    decide
  exact absurd (decDigits_toNat_lt _ _ _ hu) (by decide)

theorem keyStr_colonFree (k : Option Nat) : ':' ∉ (keyStr k).data := by
  cases k with
  | none => decide
  | some n => exact natToDec_colonFree n

theorem keyStr_inj : ∀ {k₁ k₂ : Option Nat}, keyStr k₁ = keyStr k₂ → k₁ = k₂ := by
  intro k₁ k₂ h
  cases k₁ with
  | none =>
    cases k₂ with
    | none => rfl
    | some n => exact absurd h.symm (natToDec_ne_unknown n)
  | some m =>
    cases k₂ with
    | none => exact absurd h (natToDec_ne_unknown m)
    | some n => rw [natToDec_inj h]

/-! ## Splitting a string at its last colon -/

theorem append_colon_inj : ∀ l₁ l₂ r₁ r₂ : List Char, ':' ∉ r₁ → ':' ∉ r₂ →
    l₁ ++ ':' :: r₁ = l₂ ++ ':' :: r₂ → l₁ = l₂ ∧ r₁ = r₂ := by
  intro l₁
  induction l₁ with
  | nil =>
    intro l₂ r₁ r₂ h₁ h₂ h
    cases l₂ with
    | nil => simpa using h
    | cons x xs =>
      exfalso
      simp only [List.nil_append, List.cons_append, List.cons.injEq] at h
      apply h₁
      rw [h.2]
      exact List.mem_append.2 (Or.inr (List.mem_cons_self _ _))
  | cons a as ih =>
    intro l₂ r₁ r₂ h₁ h₂ h
    cases l₂ with
    | nil =>
      exfalso
      simp only [List.nil_append, List.cons_append, List.cons.injEq] at h
      apply h₂
      rw [← h.2]
      exact List.mem_append.2 (Or.inr (List.mem_cons_self _ _))
    | cons b bs =>
      simp only [List.cons_append, List.cons.injEq] at h
      obtain ⟨h1, h2⟩ := ih bs r₁ r₂ h₁ h₂ h.2
      exact ⟨by rw [h.1, h1], h2⟩

theorem str_colon_inj {s₁ s₂ t₁ t₂ : String}
    (h₁ : ':' ∉ t₁.data) (h₂ : ':' ∉ t₂.data)
    (h : s₁ ++ ":" ++ t₁ = s₂ ++ ":" ++ t₂) : s₁ = s₂ ∧ t₁ = t₂ := by
  have hd := congrArg String.data h
  rw [String.data_append, String.data_append, String.data_append, String.data_append] at hd
  simp only [List.append_assoc] at hd
  obtain ⟨ha, hb⟩ := append_colon_inj _ _ _ _ h₁ h₂ hd
  exact ⟨String.ext ha, String.ext hb⟩

theorem currentIdentifier_eq_iff (c₁ c₂ : Chunk) :
    currentIdentifierOf c₁ = currentIdentifierOf c₂ ↔ pairOf c₁ = pairOf c₂ := by
  constructor
  · intro h
    obtain ⟨hs, hi⟩ := str_colon_inj (keyStr_colonFree _) (keyStr_colonFree _) h
    have hk : keyOf c₁ = keyOf c₂ := keyStr_inj hi
    simp [pairOf, hs, hk]
  · intro h
    have hs : sourceOf c₁ = sourceOf c₂ := congrArg Prod.fst h
    have hk : keyOf c₁ = keyOf c₂ := congrArg Prod.snd h
    simp [currentIdentifierOf, identifierOf, hs, hk]

theorem chunkId_eq_iff (a₁ a₂ : String) (o₁ o₂ : Nat) :
    a₁ ++ ":" ++ natToDec o₁ = a₂ ++ ":" ++ natToDec o₂ ↔ a₁ = a₂ ∧ o₁ = o₂ := by
  constructor
  · intro h
    obtain ⟨hs, hi⟩ := str_colon_inj (natToDec_colonFree _) (natToDec_colonFree _) h
    exact ⟨hs, natToDec_inj hi⟩
  · rintro ⟨ha, ho⟩
    rw [ha, ho]

/-! ## Shape of the assigned ordinals and identifiers -/

theorem calcOrdinalsAux_cons (last : Option String) (idx : Nat) (c : Chunk) (cs : List Chunk) :
    calcOrdinalsAux last idx (c :: cs) =
      (if some (currentIdentifierOf c) = last then idx + 1 else 0) ::
        calcOrdinalsAux (some (currentIdentifierOf c))
          (if some (currentIdentifierOf c) = last then idx + 1 else 0) cs := rfl

theorem calcIdsAux_cons (last : Option String) (idx : Nat) (c : Chunk) (cs : List Chunk) :
    calcIdsAux last idx (c :: cs) =
      (currentIdentifierOf c ++ ":" ++
        natToDec (if some (currentIdentifierOf c) = last then idx + 1 else 0)) ::
        calcIdsAux (some (currentIdentifierOf c))
          (if some (currentIdentifierOf c) = last then idx + 1 else 0) cs := rfl

theorem calcOrdinalsAux_length : ∀ (cs : List Chunk) (last : Option String) (idx : Nat),
    (calcOrdinalsAux last idx cs).length = cs.length := by
  intro cs
  induction cs with
  | nil => intro last idx; rfl
  | cons c cs' ih =>
    intro last idx
    rw [calcOrdinalsAux_cons]
    simp [ih]

theorem calcIdsAux_length : ∀ (cs : List Chunk) (last : Option String) (idx : Nat),
    (calcIdsAux last idx cs).length = cs.length := by
  intro cs
  induction cs with
  | nil => intro last idx; rfl
  | cons c cs' ih =>
    intro last idx
    rw [calcIdsAux_cons]
    simp [ih]

theorem calculate_chunk_ids_length (chunks : List Chunk) :
    (calculate_chunk_ids chunks).length = chunks.length :=
  calcIdsAux_length chunks none 0

theorem calculate_ordinals_length (chunks : List Chunk) :
    (calculate_ordinals chunks).length = chunks.length :=
  calcOrdinalsAux_length chunks none 0

theorem calcOrdinalsAux_getD_succ : ∀ (cs : List Chunk) (last : Option String) (idx n : Nat),
    n + 1 < cs.length →
    (calcOrdinalsAux last idx cs).getD (n + 1) 0 =
      if currentIdentifierOf (cs.getD (n + 1) dfltChunk) =
          currentIdentifierOf (cs.getD n dfltChunk)
      then (calcOrdinalsAux last idx cs).getD n 0 + 1 else 0 := by
  intro cs
  induction cs with
  | nil =>
    intro last idx n h
    simp at h
  | cons c cs' ih =>
    intro last idx n h
    cases cs' with
    | nil =>
      simp at h
    | cons c₁ cs'' =>
      cases n with
      | zero =>
        simp only [calcOrdinalsAux_cons, List.getD_cons_succ, List.getD_cons_zero,
          Option.some.injEq]
      | succ m =>
        have h' : m + 1 < (c₁ :: cs'').length := by
          simp only [List.length_cons] at h ⊢
          omega
        simp only [calcOrdinalsAux_cons, List.getD_cons_succ]
        exact ih _ _ m h'

theorem calculate_ordinals_getD_zero (c : Chunk) (cs : List Chunk) :
    (calculate_ordinals (c :: cs)).getD 0 0 = 0 := by
  simp [calculate_ordinals, calcOrdinalsAux_cons]

theorem calcIdsAux_getD : ∀ (cs : List Chunk) (last : Option String) (idx n : Nat),
    n < cs.length →
    (calcIdsAux last idx cs).getD n "" =
      currentIdentifierOf (cs.getD n dfltChunk) ++ ":" ++
        natToDec ((calcOrdinalsAux last idx cs).getD n 0) := by
  intro cs
  induction cs with
  | nil =>
    intro last idx n h
    simp at h
  | cons c cs' ih =>
    intro last idx n h
    cases n with
    | zero =>
      simp only [calcIdsAux_cons, calcOrdinalsAux_cons, List.getD_cons_zero]
    | succ m =>
      have h' : m < cs'.length := by
        simp only [List.length_cons] at h
        omega
      simp only [calcIdsAux_cons, calcOrdinalsAux_cons, List.getD_cons_succ]
      exact ih _ _ m h'

theorem calculate_chunk_ids_getD (chunks : List Chunk) (n : Nat) (h : n < chunks.length) :
    (calculate_chunk_ids chunks).getD n "" =
      currentIdentifierOf (chunks.getD n dfltChunk) ++ ":" ++
        natToDec ((calculate_ordinals chunks).getD n 0) :=
  calcIdsAux_getD chunks none 0 n h

/-- Within a consecutive run of one `(sourcePath, positionKey)` pair the
ordinal grows by one per chunk. -/
theorem ordinals_run (chunks : List Chunk) (i : Nat) : ∀ d : Nat, i + d < chunks.length →
    (∀ m, i ≤ m → m ≤ i + d →
      pairOf (chunks.getD m dfltChunk) = pairOf (chunks.getD i dfltChunk)) →
    (calculate_ordinals chunks).getD (i + d) 0 = (calculate_ordinals chunks).getD i 0 + d := by
  intro d
  induction d with
  | zero => intro _ _; simp
  | succ e ih =>
    intro h hall
    have h1 : i + e < chunks.length := by omega
    have hrec := calcOrdinalsAux_getD_succ chunks none 0 (i + e) h
    have hp1 : pairOf (chunks.getD (i + e + 1) dfltChunk) = pairOf (chunks.getD i dfltChunk) :=
      hall (i + e + 1) (by omega) (by omega)
    have hp2 : pairOf (chunks.getD (i + e) dfltChunk) = pairOf (chunks.getD i dfltChunk) :=
      hall (i + e) (by omega) (by omega)
    have hcur : currentIdentifierOf (chunks.getD (i + e + 1) dfltChunk) =
        currentIdentifierOf (chunks.getD (i + e) dfltChunk) :=
      (currentIdentifier_eq_iff _ _).2 (hp1.trans hp2.symm)
    have hstep : (calculate_ordinals chunks).getD (i + e + 1) 0 =
        (calculate_ordinals chunks).getD (i + e) 0 + 1 := by
      rw [show (calculate_ordinals chunks) = calcOrdinalsAux none 0 chunks from rfl]
      rw [hrec, if_pos hcur]
    have hbase := ih h1 (fun m hm1 hm2 => hall m hm1 (by omega))
    show (calculate_ordinals chunks).getD (i + e + 1) 0 =
      (calculate_ordinals chunks).getD i 0 + (e + 1)
    omega

/-- Two identifiers assigned at positions `i < j` coincide only if the pair
recurs after an interruption; under the grouping hypothesis they differ. -/
theorem chunk_ids_getD_ne (chunks : List Chunk)
    (H : ∀ i j k : Fin chunks.length, i ≤ j → j ≤ k →
      pairOf (chunks.get i) = pairOf (chunks.get k) →
      pairOf (chunks.get j) = pairOf (chunks.get i)) :
    ∀ i j, i < j → j < chunks.length →
    (calculate_chunk_ids chunks).getD i "" ≠ (calculate_chunk_ids chunks).getD j "" := by
  intro i j hij hj hEq
  have hi : i < chunks.length := by omega
  have hgd : ∀ (m : Nat) (hm : m < chunks.length),
      chunks.get ⟨m, hm⟩ = chunks.getD m dfltChunk := by
    intro m hm
    rw [List.getD_eq_getElem chunks dfltChunk hm]
    simp [List.get_eq_getElem]
  rw [calculate_chunk_ids_getD chunks i hi, calculate_chunk_ids_getD chunks j hj] at hEq
  obtain ⟨hcur, hord⟩ := (chunkId_eq_iff _ _ _ _).1 hEq
  have hpair : pairOf (chunks.getD i dfltChunk) = pairOf (chunks.getD j dfltChunk) :=
    (currentIdentifier_eq_iff _ _).1 hcur
  have hall : ∀ m, i ≤ m → m ≤ i + (j - i) →
      pairOf (chunks.getD m dfltChunk) = pairOf (chunks.getD i dfltChunk) := by
    intro m hm1 hm2
    have hm3 : m < chunks.length := by omega
    have hres := H ⟨i, hi⟩ ⟨m, hm3⟩ ⟨j, hj⟩ (by simpa using hm1)
      (by simp only [Fin.mk_le_mk]; omega)
      (by rw [hgd i hi, hgd j hj]; exact hpair)
    rw [hgd m hm3, hgd i hi] at hres
    exact hres
  have hrun := ordinals_run chunks i (j - i) (by omega) hall
  have hj' : i + (j - i) = j := by omega
  rw [hj'] at hrun
  omega

/-! ## Claim C1 — idempotent incremental indexing -/

/-- C1: calling `add_to_chroma` (`IncrementalIndexer.sync`) twice with the
same chunk list adds zero chunks on the second call and leaves the vector
store's identifier set unchanged by the second call. -/
theorem sync_idempotent (chunks : List Chunk) (store : Finset String) :
    (add_to_chroma chunks (add_to_chroma chunks store).2).1 = 0 ∧
    (add_to_chroma chunks (add_to_chroma chunks store).2).2 =
      (add_to_chroma chunks store).2 := by
  have hmem : ∀ i ∈ calculate_chunk_ids chunks, i ∈ (add_to_chroma chunks store).2 := by
    intro i hi
    show i ∈ store ∪ ((calculate_chunk_ids chunks).filter (fun i => i ∉ store)).toFinset
    by_cases h : i ∈ store
    · exact Finset.mem_union_left _ h
    · refine Finset.mem_union_right _ ?_
      rw [List.mem_toFinset, List.mem_filter]
      exact ⟨hi, by simpa using h⟩
  have hfil : (calculate_chunk_ids chunks).filter
      (fun i => i ∉ (add_to_chroma chunks store).2) = [] := by
    rw [List.filter_eq_nil_iff]
    intro a ha
    simp [hmem a ha]
  constructor
  · show ((calculate_chunk_ids chunks).filter
      (fun i => i ∉ (add_to_chroma chunks store).2)).length = 0
    rw [hfil]
    rfl
  · show (add_to_chroma chunks store).2 ∪ ((calculate_chunk_ids chunks).filter
      (fun i => i ∉ (add_to_chroma chunks store).2)).toFinset = (add_to_chroma chunks store).2
    rw [hfil]
    simp

/-! ## Claim C2 — uniqueness of chunk identifiers per batch -/

/-- C2 counterexample: the identifiers are not pairwise distinct for every
chunk list.  On the spec's own `[A, A, B, A]` position sequence the first
and fourth chunk both receive `"doc.pdf:1:0"`, because the ordinal resets
to 0 when the pair recurs after an interruption. -/
theorem chunk_ids_not_pairwise_distinct :
    ¬ (calculate_chunk_ids exampleAABA).Nodup := by decide

/-- C2 (amended): the assigned identifiers are pairwise distinct whenever
equal `(sourcePath, positionKey)` pairs occur only consecutively (as the
splitter produces them); a pair recurring after an interruption restarts
its ordinals at 0 and duplicates the ids of its earlier run. -/
theorem chunk_ids_nodup_of_grouped (chunks : List Chunk)
    (H : ∀ i j k : Fin chunks.length, i ≤ j → j ≤ k →
      pairOf (chunks.get i) = pairOf (chunks.get k) →
      pairOf (chunks.get j) = pairOf (chunks.get i)) :
    (calculate_chunk_ids chunks).Nodup := by
  rw [List.nodup_iff_injective_get]
  rintro ⟨a, ha⟩ ⟨b, hb⟩ hab
  simp only [Fin.mk.injEq]
  have ha' : a < chunks.length := by
    rw [calculate_chunk_ids_length] at ha
    exact ha
  have hb' : b < chunks.length := by
    rw [calculate_chunk_ids_length] at hb
    exact hb
  have hget : ∀ (m : Nat) (hm : m < (calculate_chunk_ids chunks).length),
      (calculate_chunk_ids chunks).get ⟨m, hm⟩ = (calculate_chunk_ids chunks).getD m "" := by
    intro m hm
    rw [List.getD_eq_getElem (calculate_chunk_ids chunks) "" hm]
    simp [List.get_eq_getElem]
  by_contra hne
  rcases Nat.lt_or_ge a b with hlt | hge
  · exact chunk_ids_getD_ne chunks H a b hlt hb'
      (by rw [← hget a ha, ← hget b hb]; exact hab)
  · have hlt' : b < a := by omega
    exact chunk_ids_getD_ne chunks H b a hlt' ha'
      (by rw [← hget a ha, ← hget b hb]; exact hab.symm)

theorem chunk_ids_nodup_of_grouped_witness :
    (calculate_chunk_ids exampleGrouped).Nodup :=
  chunk_ids_nodup_of_grouped exampleGrouped (by decide)

/-! ## Claim C3 — the ordinal assignment rule -/

/-- C3: the ordinal assigned to each chunk increments exactly when the
chunk's `(sourcePath, positionKey)` pair equals the immediately preceding
chunk's pair and resets to 0 otherwise; on a source with position-key
sequence `[A, A, B, A]` the ordinals are `[0, 1, 0, 0]`. -/
theorem ordinal_assignment_rule (chunks : List Chunk) (n : Nat)
    (h : n + 1 < chunks.length) :
    ((calculate_ordinals chunks).getD (n + 1) 0 =
      if pairOf (chunks.getD (n + 1) dfltChunk) = pairOf (chunks.getD n dfltChunk)
      then (calculate_ordinals chunks).getD n 0 + 1 else 0) ∧
    calculate_ordinals exampleAABA = [0, 1, 0, 0] := by
  refine ⟨?_, by decide⟩
  show (calcOrdinalsAux none 0 chunks).getD (n + 1) 0 = _
  rw [calcOrdinalsAux_getD_succ chunks none 0 n h]
  by_cases hp : pairOf (chunks.getD (n + 1) dfltChunk) = pairOf (chunks.getD n dfltChunk)
  · rw [if_pos ((currentIdentifier_eq_iff _ _).2 hp), if_pos hp]
    rfl
  · rw [if_neg (fun hc => hp ((currentIdentifier_eq_iff _ _).1 hc)), if_neg hp]

theorem ordinal_assignment_rule_witness :
    ((calculate_ordinals exampleAABA).getD 1 0 =
      if pairOf (exampleAABA.getD 1 dfltChunk) = pairOf (exampleAABA.getD 0 dfltChunk)
      then (calculate_ordinals exampleAABA).getD 0 0 + 1 else 0) ∧
    calculate_ordinals exampleAABA = [0, 1, 0, 0] :=
  ordinal_assignment_rule exampleAABA 0 (by decide)

/-! ## Claim C4 — the persisted identifier format -/

/-- C4: every assigned chunk id is exactly the chunk's source path, its
position key, and its ordinal joined by literal `':'` characters with no
escaping, where the position key is the page number when page metadata is
present and otherwise the start character offset. -/
theorem chunk_id_format (chunks : List Chunk) (n : Nat) (h : n < chunks.length)
    (s : String) (hs : (chunks.getD n dfltChunk).meta.source = some s) :
    (∀ p, (chunks.getD n dfltChunk).meta.page = some p →
      (calculate_chunk_ids chunks).getD n "" =
        s ++ ":" ++ natToDec p ++ ":" ++ natToDec ((calculate_ordinals chunks).getD n 0)) ∧
    ((chunks.getD n dfltChunk).meta.page = none →
      ∀ k, (chunks.getD n dfltChunk).meta.start_index = some k →
      (calculate_chunk_ids chunks).getD n "" =
        s ++ ":" ++ natToDec k ++ ":" ++ natToDec ((calculate_ordinals chunks).getD n 0)) := by
  have hd := calculate_chunk_ids_getD chunks n h
  constructor
  · intro p hp
    rw [hd]
    simp only [currentIdentifierOf, identifierOf, keyOf, sourceOf, keyStr, hs, hp,
      Option.getD_some]
  · intro hp k hk
    rw [hd]
    simp only [currentIdentifierOf, identifierOf, keyOf, sourceOf, keyStr, hs, hp, hk,
      Option.getD_some]

theorem chunk_id_format_witness :
    ((calculate_chunk_ids exampleFmt).getD 0 "" =
      "a.pdf" ++ ":" ++ natToDec 3 ++ ":" ++ natToDec ((calculate_ordinals exampleFmt).getD 0 0)) ∧
    ((calculate_chunk_ids exampleFmt).getD 1 "" =
      "b.pdf" ++ ":" ++ natToDec 42 ++ ":" ++ natToDec ((calculate_ordinals exampleFmt).getD 1 0)) :=
  ⟨(chunk_id_format exampleFmt 0 (by decide) "a.pdf" (by decide)).1 3 (by decide),
   (chunk_id_format exampleFmt 1 (by decide) "b.pdf" (by decide)).2 (by decide) 42 (by decide)⟩

/-! ## Properties of the substring test -/

theorem isPrefCh_nil (l : List Char) : isPrefCh [] l = true := by
  cases l <;> rfl

theorem isPrefCh_append_self : ∀ x r : List Char, isPrefCh x (x ++ r) = true := by
  intro x
  induction x with
  | nil => intro r; exact isPrefCh_nil r
  | cons a as ih =>
    intro r
    simp [isPrefCh, ih r]

theorem isPrefCh_extend : ∀ x l r : List Char,
    isPrefCh x l = true → isPrefCh x (l ++ r) = true := by
  intro x
  induction x with
  | nil => intro l r _; exact isPrefCh_nil _
  | cons a as ih =>
    intro l r h
    cases l with
    | nil => simp [isPrefCh] at h
    | cons b bs =>
      simp only [isPrefCh, Bool.and_eq_true] at h
      simp only [List.cons_append, isPrefCh, Bool.and_eq_true]
      exact ⟨h.1, ih bs r h.2⟩

theorem isSubCh_nil_needle : ∀ l : List Char, isSubCh [] l = true := by
  intro l
  cases l with
  | nil => rfl
  | cons c cs => simp [isSubCh, isPrefCh_nil]

theorem isSubCh_of_isPrefCh : ∀ x l : List Char, isPrefCh x l = true → isSubCh x l = true := by
  intro x l h
  cases l with
  | nil => simpa [isSubCh] using h
  | cons b bs => simp [isSubCh, h]

theorem isSubCh_cons (x : List Char) (c : Char) (t : List Char)
    (h : isSubCh x t = true) : isSubCh x (c :: t) = true := by
  simp [isSubCh, h]

theorem isSubCh_append_left : ∀ (l x t : List Char),
    isSubCh x t = true → isSubCh x (l ++ t) = true := by
  intro l
  induction l with
  | nil => intro x t h; simpa using h
  | cons c cs ih => intro x t h; exact isSubCh_cons x c _ (ih x t h)

theorem isSubCh_append_right : ∀ (l x r : List Char),
    isSubCh x l = true → isSubCh x (l ++ r) = true := by
  intro l
  induction l with
  | nil =>
    intro x r h
    cases x with
    | nil => exact isSubCh_nil_needle r
    | cons a as => simp [isSubCh, isPrefCh] at h
  | cons c cs ih =>
    intro x r h
    simp only [isSubCh, Bool.or_eq_true] at h
    rcases h with hp | hs
    · exact isSubCh_of_isPrefCh x ((c :: cs) ++ r) (isPrefCh_extend x (c :: cs) r hp)
    · exact isSubCh_cons x c _ (ih x r hs)

theorem strIn_append_left (x a b : String) (h : strIn x b = true) :
    strIn x (a ++ b) = true := by
  show isSubCh x.data (a ++ b).data = true
  rw [String.data_append]
  exact isSubCh_append_left a.data x.data b.data h

theorem strIn_append_right (x a b : String) (h : strIn x a = true) :
    strIn x (a ++ b) = true := by
  show isSubCh x.data (a ++ b).data = true
  rw [String.data_append]
  exact isSubCh_append_right a.data x.data b.data h

theorem strIn_self_wrap (acc lab : String) :
    strIn lab (acc ++ "<li>" ++ lab ++ "</li>\n") = true := by
  have h2 : isSubCh lab.data (lab.data ++ "</li>\n".data) = true :=
    isSubCh_of_isPrefCh _ _ (isPrefCh_append_self _ _)
  have h3 := isSubCh_append_left ((acc ++ "<li>").data) lab.data _ h2
  show isSubCh lab.data (acc ++ "<li>" ++ lab ++ "</li>\n").data = true
  rw [String.data_append, String.data_append, List.append_assoc]
  exact h3

/-! ## Unfolding the citation loop -/

theorem fsAux_none (acc : String) (rest : List (Option String)) :
    fsAux acc (none :: rest) = fsAux acc rest := rfl

theorem fsAux_some (acc s : String) (rest : List (Option String)) :
    fsAux acc (some s :: rest) =
      (if s = "" then fsAux acc rest
       else if 1 < (resplit s).length then
         if 3 ≤ (resplit s).length then
           if strIn ((resplit s).getD ((resplit s).length - 3) "") acc
           then fsAux acc rest
           else fsAux (acc ++ "<li>" ++ (resplit s).getD ((resplit s).length - 3) "" ++ "</li>\n") rest
         else Except.error PyError.indexError
       else fsAux acc rest) := rfl

theorem labelsAux_none (acc : String) (rest : List (Option String)) :
    labelsAux acc (none :: rest) = labelsAux acc rest := rfl

theorem labelsAux_some (acc s : String) (rest : List (Option String)) :
    labelsAux acc (some s :: rest) =
      (if s = "" then labelsAux acc rest
       else if 1 < (resplit s).length then
         if 3 ≤ (resplit s).length then
           if strIn ((resplit s).getD ((resplit s).length - 3) "") acc
           then labelsAux acc rest
           else
             match labelsAux
                 (acc ++ "<li>" ++ (resplit s).getD ((resplit s).length - 3) "" ++ "</li>\n")
                 rest with
             | Except.ok l =>
               Except.ok ((resplit s).getD ((resplit s).length - 3) "" :: l)
             | Except.error e => Except.error e
         else Except.error PyError.indexError
       else labelsAux acc rest) := rfl

theorem extractedLabels_nil : extractedLabels [] = [] := rfl

theorem extractedLabels_cons_none (rest : List (Option String)) :
    extractedLabels (none :: rest) = extractedLabels rest := rfl

theorem extractedLabels_cons_skip (s : String) (rest : List (Option String))
    (h : extractOne (some s) = none) :
    extractedLabels (some s :: rest) = extractedLabels rest := by
  simp [extractedLabels, h]

theorem extractedLabels_cons_take (s lab : String) (rest : List (Option String))
    (h : extractOne (some s) = some lab) :
    extractedLabels (some s :: rest) = lab :: extractedLabels rest := by
  simp [extractedLabels, h]

theorem extractOne_some_eq (s : String) (hs : ¬ s = "") (h1 : 1 < (resplit s).length)
    (h3 : 3 ≤ (resplit s).length) :
    extractOne (some s) = some ((resplit s).getD ((resplit s).length - 3) "") := by
  simp [extractOne, hs, h1, h3]

theorem extractOne_some_none_short (s : String) (h1 : ¬ 1 < (resplit s).length) :
    extractOne (some s) = none := by
  by_cases hs : s = "" <;> simp [extractOne, hs, h1]

/-- Invariant of the citation loop: every label in the produced list is
absent (as a substring) from the starting accumulator, the list has no
duplicates, and it is a subsequence of the raw extracted labels. -/
theorem labelsAux_ok : ∀ (srcs : List (Option String)) (acc : String) (l : List String),
    labelsAux acc srcs = Except.ok l →
    (∀ x ∈ l, strIn x acc = false) ∧ l.Nodup ∧ l.Sublist (extractedLabels srcs) := by
  intro srcs
  induction srcs with
  | nil =>
    intro acc l h
    have hl : ([] : List String) = l := by simpa [labelsAux] using h
    subst hl
    simp [extractedLabels]
  | cons src rest ih =>
    intro acc l h
    cases src with
    | none =>
      rw [labelsAux_none] at h
      obtain ⟨h1, h2, h3⟩ := ih acc l h
      exact ⟨h1, h2, by rw [extractedLabels_cons_none]; exact h3⟩
    | some s =>
      rw [labelsAux_some] at h
      by_cases hs : s = ""
      · rw [if_pos hs] at h
        obtain ⟨h1, h2, h3⟩ := ih acc l h
        refine ⟨h1, h2, ?_⟩
        rw [extractedLabels_cons_skip s rest (by simp [extractOne, hs])]
        exact h3
      · rw [if_neg hs] at h
        by_cases hl1 : 1 < (resplit s).length
        · rw [if_pos hl1] at h
          by_cases hl3 : 3 ≤ (resplit s).length
          · rw [if_pos hl3] at h
            by_cases hin : strIn ((resplit s).getD ((resplit s).length - 3) "") acc = true
            · rw [if_pos hin] at h
              obtain ⟨h1, h2, h3⟩ := ih acc l h
              refine ⟨h1, h2, ?_⟩
              rw [extractedLabels_cons_take s _ rest (extractOne_some_eq s hs hl1 hl3)]
              exact h3.cons _
            · rw [if_neg hin] at h
              cases hrec : labelsAux
                  (acc ++ "<li>" ++ (resplit s).getD ((resplit s).length - 3) "" ++ "</li>\n")
                  rest with
              | error e => rw [hrec] at h; simp at h
              | ok l' =>
                rw [hrec] at h
                simp only [Except.ok.injEq] at h
                subst h
                obtain ⟨h1, h2, h3⟩ := ih _ l' hrec
                refine ⟨?_, ?_, ?_⟩
                · intro x hx
                  rcases List.mem_cons.1 hx with hx | hx
                  · subst hx
                    simpa using hin
                  · by_contra hcon
                    have hxt : strIn x acc = true := by
                      cases hxa : strIn x acc with
                      | false => exact absurd hxa hcon
                      | true => rfl
                    have hstep : strIn x
                        (acc ++ "<li>" ++ (resplit s).getD ((resplit s).length - 3) "" ++ "</li>\n")
                        = true :=
                      strIn_append_right _ _ _ (strIn_append_right _ _ _ (strIn_append_right _ _ _ hxt))
                    rw [h1 x hx] at hstep
                    exact Bool.false_ne_true hstep
                · refine List.nodup_cons.2 ⟨?_, h2⟩
                  intro hmem
                  have hfalse := h1 _ hmem
                  rw [strIn_self_wrap] at hfalse
                  simp at hfalse
                · rw [extractedLabels_cons_take s _ rest (extractOne_some_eq s hs hl1 hl3)]
                  exact h3.cons₂ _
          · rw [if_neg hl3] at h
            simp at h
        · rw [if_neg hl1] at h
          obtain ⟨h1, h2, h3⟩ := ih acc l h
          refine ⟨h1, h2, ?_⟩
          rw [extractedLabels_cons_skip s rest (extractOne_some_none_short s hl1)]
          exact h3

/-- The citation loop's accumulated markup is exactly the concatenation of
`<li>…</li>` items for the labels it records, appended to the starting
accumulator. -/
theorem fsAux_labelsAux : ∀ (srcs : List (Option String)) (acc : String),
    fsAux acc srcs = (labelsAux acc srcs).map (fun l => acc ++ joinStrs (l.map wrapLi)) := by
  intro srcs
  induction srcs with
  | nil =>
    intro acc
    show Except.ok acc = Except.ok (acc ++ joinStrs [])
    rw [show joinStrs [] = "" from rfl, String.append_empty]
  | cons src rest ih =>
    intro acc
    cases src with
    | none =>
      rw [fsAux_none, labelsAux_none]
      exact ih acc
    | some s =>
      rw [fsAux_some, labelsAux_some]
      by_cases hs : s = ""
      · rw [if_pos hs, if_pos hs]
        exact ih acc
      · rw [if_neg hs, if_neg hs]
        by_cases hl1 : 1 < (resplit s).length
        · rw [if_pos hl1, if_pos hl1]
          by_cases hl3 : 3 ≤ (resplit s).length
          · rw [if_pos hl3, if_pos hl3]
            by_cases hin : strIn ((resplit s).getD ((resplit s).length - 3) "") acc = true
            · rw [if_pos hin, if_pos hin]
              exact ih acc
            · rw [if_neg hin, if_neg hin]
              cases hrec : labelsAux
                  (acc ++ "<li>" ++ (resplit s).getD ((resplit s).length - 3) "" ++ "</li>\n")
                  rest with
              | error e =>
                have := ih (acc ++ "<li>" ++ (resplit s).getD ((resplit s).length - 3) "" ++ "</li>\n")
                rw [hrec] at this
                rw [this]
                rfl
              | ok l' =>
                have := ih (acc ++ "<li>" ++ (resplit s).getD ((resplit s).length - 3) "" ++ "</li>\n")
                rw [hrec] at this
                rw [this]
                show Except.ok _ = Except.ok _
                rw [Except.ok.injEq]
                simp [wrapLi, joinStrs, String.append_assoc]
          · rw [if_neg hl3, if_neg hl3]
            rfl
        · rw [if_neg hl1, if_neg hl1]
          exact ih acc

/-! ## Claim C5 — the relevance threshold filter -/

/-- C5: a retrieved result whose score is at least `1.0` is used neither
for the retrieved-context block (line 226's filtered list, from which
`docs_text` is built) nor for the derived sources list (line 244's filtered
list); both use exactly the results with score strictly below `1.0`. -/
theorem relevance_threshold_filter (results : List SearchResult) (r : SearchResult)
    (_hmem : r ∈ results) (hscore : (1 : ℚ) ≤ r.score) :
    (r ∉ contextFiltered results ∧ r ∉ sourcesFiltered results) ∧
    (∀ r' ∈ contextFiltered results, r'.score < 1) ∧
    (∀ r' ∈ sourcesFiltered results, r'.score < 1) := by
  refine ⟨⟨?_, ?_⟩, ?_, ?_⟩
  · intro hr
    rw [contextFiltered, List.mem_filter, decide_eq_true_eq] at hr
    exact absurd hr.2 (not_lt.2 hscore)
  · intro hr
    rw [sourcesFiltered, List.mem_filter, decide_eq_true_eq] at hr
    exact absurd hr.2 (not_lt.2 hscore)
  · intro r' hr'
    rw [contextFiltered, List.mem_filter, decide_eq_true_eq] at hr'
    exact hr'.2
  · intro r' hr'
    rw [sourcesFiltered, List.mem_filter, decide_eq_true_eq] at hr'
    exact hr'.2

theorem relevance_threshold_filter_witness :
    (((⟨"far", some "far.pdf:1:0", 2⟩ : SearchResult) ∉ contextFiltered demoResults ∧
      (⟨"far", some "far.pdf:1:0", 2⟩ : SearchResult) ∉ sourcesFiltered demoResults) ∧
     (∀ r' ∈ contextFiltered demoResults, r'.score < 1) ∧
     (∀ r' ∈ sourcesFiltered demoResults, r'.score < 1)) :=
  relevance_threshold_filter demoResults ⟨"far", some "far.pdf:1:0", 2⟩
    (by decide) (by norm_num)

/-! ## Claim C6 — source attribution and deduplication -/

/-- C6 counterexample: the emitted label list is not in general the
extracted labels with duplicates removed (first occurrence kept).  The
containment test is substring containment on the accumulated markup, so
for the passing ids `"abc:0:0"` and `"b:0:0"` the distinct label `"b"` is
dropped because it occurs inside `"<li>abc</li>\n"`. -/
theorem source_label_dedup_counterexample :
    labelsOf [some "abc:0:0", some "b:0:0"] ≠
      Except.ok (dedupFirst (extractedLabels [some "abc:0:0", some "b:0:0"])) := by decide

/-- C6 (amended): in the spec's scenario — two passing chunks with ids
`"report.pdf:3:0"` and `"report.pdf:3:1"` — the sources list contains
exactly the one entry `"report.pdf"`.  In general the emitted label list is
duplicate-free and preserves first-seen order (a subsequence of the
extracted labels), and the accumulated markup is exactly its `<li>…</li>`
rendering; however the dedup test is substring containment against the
accumulated markup, so a label occurring inside previously accumulated
markup is dropped even when it is not a duplicate. -/
theorem source_attribution (srcs : List (Option String)) (l : List String)
    (h : labelsOf srcs = Except.ok l) :
    (l.Nodup ∧ l.Sublist (extractedLabels srcs) ∧
      formattedSources srcs = Except.ok (joinStrs (l.map wrapLi))) ∧
    labelsOf demoSources = Except.ok ["report.pdf"] ∧
    formattedSources demoSources = Except.ok "<li>report.pdf</li>\n" := by
  obtain ⟨_h1, h2, h3⟩ := labelsAux_ok srcs "" l h
  refine ⟨⟨h2, h3, ?_⟩, by decide, by decide⟩
  have hfs : formattedSources srcs =
      (labelsAux "" srcs).map (fun l => "" ++ joinStrs (l.map wrapLi)) :=
    fsAux_labelsAux srcs ""
  rw [show labelsAux "" srcs = Except.ok l from h] at hfs
  rw [hfs]
  show Except.ok ("" ++ joinStrs (l.map wrapLi)) = Except.ok (joinStrs (l.map wrapLi))
  rw [String.empty_append]

theorem source_attribution_witness :
    ((["report.pdf"].Nodup ∧
      (["report.pdf"] : List String).Sublist (extractedLabels demoSources) ∧
      formattedSources demoSources = Except.ok (joinStrs (["report.pdf"].map wrapLi))) ∧
     labelsOf demoSources = Except.ok ["report.pdf"] ∧
     formattedSources demoSources = Except.ok "<li>report.pdf</li>\n") :=
  source_attribution demoSources ["report.pdf"] (by decide)

/-! ## Claim C9 — malformed identifiers in the citation loop -/

/-- C9 counterexample: a passing identifier splitting into exactly two
segments does not silently produce no label — accessing `split_string[-3]`
raises `IndexError`, aborting the loop. -/
theorem malformed_id_two_segments_raises :
    formattedSources [some "a:b"] = Except.error PyError.indexError := by decide

/-- C9 (amended): a passing identifier whose split yields fewer than three
segments produces no label; this is silent when the split yields a single
segment (or the id is empty or missing), but with exactly two segments the
loop raises an `IndexError` instead of continuing. -/
theorem malformed_id_handling (acc s : String) (rest : List (Option String))
    (h : (resplit s).length < 3) :
    (((resplit s).length ≤ 1 ∨ s = "") → fsAux acc (some s :: rest) = fsAux acc rest) ∧
    ((resplit s).length = 2 → ¬ s = "" →
      fsAux acc (some s :: rest) = Except.error PyError.indexError) := by
  constructor
  · intro hc
    rw [fsAux_some]
    by_cases hs : s = ""
    · rw [if_pos hs]
    · rcases hc with hc | hc
      · rw [if_neg hs, if_neg (by omega : ¬ 1 < (resplit s).length)]
      · exact absurd hc hs
  · intro h2 hs
    rw [fsAux_some, if_neg hs, if_pos (by omega : 1 < (resplit s).length),
      if_neg (by omega : ¬ 3 ≤ (resplit s).length)]

theorem malformed_id_handling_witness :
    (fsAux "" [some "a"] = fsAux "" ([] : List (Option String)) ∧
     fsAux "" [some "a:b"] = Except.error PyError.indexError) :=
  ⟨(malformed_id_handling "" "a" [] (by decide)).1 (Or.inl (by decide)),
   (malformed_id_handling "" "a:b" [] (by decide)).2 (by decide) (by decide)⟩

/-! ## Claim C7 — token streaming order -/

/-- C7: when the stream completes (and the citation loop does not raise),
subscribers of the conversation's room observe exactly one `stream_token`
event per emitted token, in emission order, each tagged with the
placeholder assistant message's id, all before the single final
`final_response` event; for the token sequence `["The", "  ", "answer"]`
they observe exactly those three events in that order. -/
theorem streaming_order (render : String → String) (st : ChatState) (query : String)
    (results : List SearchResult) (toks : List String) (fs : String)
    (hfs : formattedSources (sourcesOf results) = Except.ok fs) :
    (∃ html : String,
      (handleSubmitQuery render st query results (StreamOutcome.ok toks)).2 =
        Event.startStream (st.nextId + 1) ::
          (toks.map (fun t => Event.streamToken t (st.nextId + 1)) ++
            [Event.finalResponse html (st.nextId + 1)])) ∧
    (handleSubmitQuery (fun s => s) ⟨[], 1⟩ "q" [] (StreamOutcome.ok ["The", "  ", "answer"])).2 =
      [Event.startStream 2, Event.streamToken "The" 2, Event.streamToken "  " 2,
       Event.streamToken "answer" 2, Event.finalResponse "The  answer" 2] := by
  refine ⟨?_, by decide⟩
  refine ⟨render (if fs = "" then joinStrs toks
    else joinStrs toks ++ "\n\n<h4>Here my Sources:</h4>\n<ul>" ++ fs ++ "</ul>"), ?_⟩
  simp only [handleSubmitQuery]
  rw [hfs]
  rfl

theorem streaming_order_witness :
    ((∃ html : String,
      (handleSubmitQuery (fun s => s) ⟨[], 1⟩ "q" [] (StreamOutcome.ok ["The", "  ", "answer"])).2 =
        Event.startStream 2 ::
          ((["The", "  ", "answer"].map (fun t => Event.streamToken t 2)) ++
            [Event.finalResponse html 2])) ∧
    (handleSubmitQuery (fun s => s) ⟨[], 1⟩ "q" [] (StreamOutcome.ok ["The", "  ", "answer"])).2 =
      [Event.startStream 2, Event.streamToken "The" 2, Event.streamToken "  " 2,
       Event.streamToken "answer" 2, Event.finalResponse "The  answer" 2]) :=
  streaming_order (fun s => s) ⟨[], 1⟩ "q" [] ["The", "  ", "answer"] "" rfl

/-! ## Claim C8 — mid-stream model failure -/

/-- C8: if the model stream fails after emitting a prefix of tokens, the
handler aborts — the conversation store still ends with the user's message
and the placeholder assistant row whose content is `"Generating..."` (no
final answer is persisted), while the events published are exactly the
`start_stream` announcement and one `stream_token` per already-emitted
token, in order; in particular no `final_response` event occurs and the
emitted tokens are not retracted. -/
theorem midstream_failure (render : String → String) (st : ChatState) (query : String)
    (results : List SearchResult) (toks : List String) :
    (handleSubmitQuery render st query results (StreamOutcome.failAfter toks)).1.msgs =
      st.msgs ++ [(st.nextId, ⟨"user", query⟩),
        (st.nextId + 1, ⟨"assistant", "Generating..."⟩)] ∧
    (handleSubmitQuery render st query results (StreamOutcome.failAfter toks)).2 =
      Event.startStream (st.nextId + 1) ::
        toks.map (fun t => Event.streamToken t (st.nextId + 1)) := by
  constructor
  · show (st.msgs ++ [(st.nextId, ⟨"user", query⟩)]) ++
      [(st.nextId + 1, ⟨"assistant", "Generating..."⟩)] = _
    rw [List.append_assoc]
    rfl
  · rfl

/-! ## Claim C10 — the history block contains the current exchange -/

theorem joinSep_append_two (sep : String) : ∀ (xs : List String) (a b : String),
    ∃ pre, joinSep sep (xs ++ [a, b]) = pre ++ (a ++ sep ++ b) := by
  intro xs
  induction xs with
  | nil =>
    intro a b
    refine ⟨"", ?_⟩
    rw [String.empty_append]
    rfl
  | cons x xs' ih =>
    intro a b
    obtain ⟨pre, hpre⟩ := ih a b
    cases xs' with
    | nil =>
      refine ⟨x ++ sep, ?_⟩
      show x ++ sep ++ joinSep sep [a, b] = (x ++ sep) ++ (a ++ sep ++ b)
      rw [show joinSep sep [a, b] = a ++ sep ++ b from rfl]
    | cons y ys =>
      refine ⟨x ++ sep ++ pre, ?_⟩
      show x ++ sep ++ joinSep sep ((y :: ys) ++ [a, b]) =
        (x ++ sep ++ pre) ++ (a ++ sep ++ b)
      rw [hpre, String.append_assoc (x ++ sep) pre (a ++ sep ++ b)]

/-- C10: after `handle_submit_query` commits the user's message and the
`"Generating..."` placeholder, the history it then reads (the last 10 rows
in timestamp order) already ends with exactly those two rows; hence the
rendered history block ends with `"User: <query>\nAssistant: Generating..."`
and the prompt contains the query a second time in its question slot. -/
theorem history_contains_current (st : ChatState) (query : String) :
    (lastN (persistedAfterSubmit st query).msgs 10).getLast? =
      some (st.nextId + 1, ⟨"assistant", "Generating..."⟩) ∧
    (lastN (persistedAfterSubmit st query).msgs 10).dropLast.getLast? =
      some (st.nextId, ⟨"user", query⟩) ∧
    (∃ pre, historyText (lastN (persistedAfterSubmit st query).msgs 10) =
      pre ++ ("User: " ++ query ++ "\nAssistant: Generating...")) ∧
    ∀ ctx, buildPrompt (historyText (lastN (persistedAfterSubmit st query).msgs 10)) ctx query =
      promptHeader ++ historyText (lastN (persistedAfterSubmit st query).msgs 10) ++
        promptMid1 ++ ctx ++ promptMid2 ++ query ++ promptSuffix := by
  obtain ⟨pre10, hp⟩ : ∃ pre10 : List (Nat × Msg),
      lastN (persistedAfterSubmit st query).msgs 10 =
        pre10 ++ [(st.nextId, ⟨"user", query⟩),
          (st.nextId + 1, ⟨"assistant", "Generating..."⟩)] := by
    refine ⟨st.msgs.drop (st.msgs.length + 2 - 10), ?_⟩
    show ((st.msgs ++ [(st.nextId, (⟨"user", query⟩ : Msg))]) ++
        [(st.nextId + 1, (⟨"assistant", "Generating..."⟩ : Msg))]).drop
      (((st.msgs ++ [(st.nextId, (⟨"user", query⟩ : Msg))]) ++
        [(st.nextId + 1, (⟨"assistant", "Generating..."⟩ : Msg))]).length - 10) = _
    rw [List.append_assoc]
    have hlen : (st.msgs ++ ([(st.nextId, (⟨"user", query⟩ : Msg))] ++
        [(st.nextId + 1, (⟨"assistant", "Generating..."⟩ : Msg))])).length =
      st.msgs.length + 2 := by simp
    rw [hlen, List.drop_append_of_le_length (by omega)]
    rfl
  have hfu : fmtMsg ⟨"user", query⟩ = "User: " ++ query := by
    rw [fmtMsg, show pyTitle "user" = "User" from rfl,
      show ("User" : String) ++ ": " = "User: " from by decide]
  have hfg : fmtMsg ⟨"assistant", "Generating..."⟩ = "Assistant: Generating..." := by decide
  have hsplit : pre10 ++ [(st.nextId, (⟨"user", query⟩ : Msg)),
      (st.nextId + 1, (⟨"assistant", "Generating..."⟩ : Msg))] =
    (pre10 ++ [(st.nextId, (⟨"user", query⟩ : Msg))]) ++
      [(st.nextId + 1, (⟨"assistant", "Generating..."⟩ : Msg))] := by
    rw [List.append_assoc]
    rfl
  have hmap2 : ([(st.nextId, (⟨"user", query⟩ : Msg)),
      (st.nextId + 1, (⟨"assistant", "Generating..."⟩ : Msg))].map (fun p => fmtMsg p.2)) =
    ["User: " ++ query, "Assistant: Generating..."] := by
    simp only [List.map_cons, List.map_nil]
    rw [show fmtMsg ((st.nextId, (⟨"user", query⟩ : Msg)).2) = "User: " ++ query from hfu,
      show fmtMsg ((st.nextId + 1, (⟨"assistant", "Generating..."⟩ : Msg)).2) =
        "Assistant: Generating..." from hfg]
  refine ⟨?_, ?_, ?_, fun ctx => rfl⟩
  · rw [hp, hsplit]
    exact List.getLast?_concat _
  · rw [hp, hsplit, List.dropLast_concat]
    exact List.getLast?_concat _
  · obtain ⟨pre, hpre⟩ := joinSep_append_two "\n" (pre10.map (fun p => fmtMsg p.2))
      ("User: " ++ query) "Assistant: Generating..."
    refine ⟨pre, ?_⟩
    rw [historyText, hp, List.map_append, hmap2]
    rw [hpre, String.append_assoc ("User: " ++ query) "\n" "Assistant: Generating...",
      show ("\n" : String) ++ "Assistant: Generating..." = "\nAssistant: Generating..." from by
        decide]

example : resplit "report.pdf:3:0" = ["report.pdf", "3", "0"] := by decide

example : formattedSources [some "report.pdf:3:0", some "report.pdf:3:1"] =
    Except.ok "<li>report.pdf</li>\n" := by decide

example : formattedSources [some "a:b"] = Except.error PyError.indexError := by decide

example : labelsOf [some "abc:0:0", some "b:0:0"] = Except.ok ["abc"] := by decide

example : dedupFirst (extractedLabels [some "abc:0:0", some "b:0:0"]) = ["abc", "b"] := by
  decide

example :
    (handleSubmitQuery (fun s => s) ⟨[], 1⟩ "q" [] (StreamOutcome.ok ["The", "  ", "answer"])).2 =
      [Event.startStream 2, Event.streamToken "The" 2, Event.streamToken "  " 2,
       Event.streamToken "answer" 2, Event.finalResponse "The  answer" 2] := by decide

end Chatbot
